import Mathlib

/-!
Shallow embedding of `src/main.py` (student-matcher): a CSV normalization and
record-matching pipeline.  Files are modelled as `Option (List String)`
(decoded lines; `none` = the file could not be opened or decoded), tables as a
column list plus rows of association lists from column name to cell value, and
Python exceptions as `Except.error`.  External library calls (pandas
`to_datetime`, `csv.Sniffer`) are taken as parameters, since they are not part
of this repository's code.
-/

/-- Cell values of a pandas DataFrame as used by this program: strings, the
booleans written by the flag loop, and missing data (both Python `None` and
float `NaN` behave as missing in pandas comparisons, so a single `null`
constructor models both). -/
inductive Value where
  | str : String → Value
  | bool : Bool → Value
  | null : Value
deriving DecidableEq, Repr

/-- Elementwise pandas `==` between a cell and a scalar (the comparisons on
lines 174-176 of `main.py`).  Pandas `scalar_compare` returns `False` under
equality whenever either side is a missing value (`None`/`NaN`), and Python
equality on the remaining values otherwise; in particular null never equals
null. -/
def valueEq : Value → Value → Bool
  | Value.null, _ => false
  | _, Value.null => false
  | Value.str s, Value.str t => s == t
  | Value.bool a, Value.bool b => a == b
  | _, _ => false

/-- Pandas truthiness of a cell, as used by `DataFrame.any(axis=None)`:
missing values are skipped (count as false), booleans count as themselves and
a string counts as true iff it is nonempty. -/
def truthy : Value → Bool
  | Value.null => false
  | Value.str s => !s.isEmpty
  | Value.bool b => b

/-- A DataFrame row: an association list from (lower-cased) column name to
cell value, in column order. -/
abbrev Row := List (String × Value)

/-- Reading a cell from a row (`row["c"]`); total via a `null` default, the
pipeline checks column presence separately where Python would raise. -/
def rowGet (r : Row) (c : String) : Value :=
  (List.lookup c r).getD Value.null

/-- A DataFrame: column names plus rows (each row aligned with `cols`). -/
structure Table where
  cols : List String
  rows : List Row
deriving DecidableEq, Repr

/-- Alignment invariant of a loaded DataFrame: every row's keys are exactly
the table's columns, in order. -/
def Table.WF (t : Table) : Prop :=
  ∀ r ∈ t.rows, r.map Prod.fst = t.cols

/-- Overwrite the value of an existing key in a row. -/
def setAssoc (r : Row) (c : String) (v : Value) : Row :=
  r.map (fun p => if p.1 == c then (c, v) else p)

/-- Column assignment `df[c] = df.apply(f, axis=1)`-style: each row's new cell
is computed from the old row; an existing column is overwritten in place, a
new column is appended on the right (pandas column-assignment semantics). -/
def Table.setCol (t : Table) (c : String) (f : Row → Value) : Table :=
  if t.cols.contains c then
    ⟨t.cols, t.rows.map (fun r => setAssoc r c (f r))⟩
  else
    ⟨t.cols ++ [c], t.rows.map (fun r => r ++ [(c, f r)])⟩

/-- `df.drop(columns=cs)` (presence of the labels is checked by callers,
mirroring pandas raising `KeyError` on missing labels). -/
def Table.dropCols (t : Table) (cs : List String) : Table :=
  ⟨t.cols.filter (fun c => !cs.contains c),
   t.rows.map (fun r => r.filter (fun p => !cs.contains p.1))⟩

/-- Split a character list at every whitespace character (keeping the empty
pieces between consecutive separators). -/
def wsSplit : List Char → List (List Char)
  | [] => [[]]
  | c :: rest =>
    if c.isWhitespace then
      [] :: wsSplit rest
    else
      match wsSplit rest with
      | [] => [[c]]
      | t :: ts => (c :: t) :: ts

/-- Python `str.split()` with no separator: split on whitespace runs,
discarding empty pieces. -/
def pySplit (s : String) : List String :=
  ((wsSplit s.data).filter (fun t => !t.isEmpty)).map (fun t => String.mk t)

/-- Python `str.lower()`: per-character ASCII lower-casing. -/
def strToLower (s : String) : String :=
  String.mk (s.data.map Char.toLower)

/-- Lines 189-199 of `main.py`: suffix-aware last-name derivation.  `none`
models Python `None` (empty token list). -/
def handle_suffix_lastname (name_str : String) : Option String :=
  let parts := pySplit name_str
  if h : parts = [] then
    none
  else
    let last_part := strToLower (parts.getLast h)
    let roman_numerals := ["ii", "iii", "iv", "v", "vi", "vii", "viii", "ix", "x"]
    if (["jr", "sr"] ++ roman_numerals).contains last_part ∧ parts.length > 1 then
      some (String.intercalate " " (parts.drop (parts.length - 2)))
    else
      some (parts.getLast h)

/-- The lambda on lines 156-158 / 167-170: first whitespace token of a string
cell, null for non-strings or whitespace-only strings. -/
def firstTokenV : Value → Value
  | Value.str s =>
    match (pySplit s).head? with
    | some t => Value.str t
    | none => Value.null
  | _ => Value.null

/-- The lambda on lines 159-161 / 163-166: `handle_suffix_lastname` on string
cells, null for non-strings. -/
def suffixLastV : Value → Value
  | Value.str s =>
    match handle_suffix_lastname s with
    | some t => Value.str t
    | none => Value.null
  | _ => Value.null

/-- Lines 110-114 of `main.py`: first of `birthdate`, `date of birth`, `dob`
present among the columns. -/
def find_dob_field (t : Table) : Option String :=
  (["birthdate", "date of birth", "dob"]).find? (fun f => t.cols.contains f)

/-- Lines 9-14 of `main.py`.  `parse` stands for the external composition
`pd.to_datetime(·, errors="coerce").dt.strftime("%Y-%m-%d")` applied to one
cell (null for unparseable input).  Indexing the frame with a missing or
`None` field name raises `KeyError` in Python, modelled as `Except.error`. -/
def standardize_dob (parse : Value → Value) (t : Table) (dob_field : Option String) :
    Except String Table :=
  match dob_field with
  | none => Except.error "KeyError: None"
  | some f =>
    if t.cols.contains f then
      Except.ok (t.setCol "helper_dob" (fun r => parse (rowGet r f)))
    else
      Except.error "KeyError: dob field"

/-- The helper columns dropped before the result is returned (line 183). -/
def helperCols : List String := ["helper_lastname", "helper_firstname", "helper_dob"]

/-- Lines 154-170 of `main.py`: derive `helper_firstname` / `helper_lastname`
from a combined `name` column (then drop it), or from separate
`lastname` / `firstname` columns. -/
def addHelpers (t : Table) : Table :=
  let t1 :=
    if t.cols.contains "name" then
      (((t.setCol "helper_firstname" (fun r => firstTokenV (rowGet r "name"))).setCol
          "helper_lastname" (fun r => suffixLastV (rowGet r "name"))).dropCols ["name"])
    else t
  let t2 :=
    if t1.cols.contains "lastname" then
      t1.setCol "helper_lastname" (fun r => suffixLastV (rowGet r "lastname"))
    else t1
  if t2.cols.contains "firstname" then
    t2.setCol "helper_firstname" (fun r => firstTokenV (rowGet r "firstname"))
  else t2

/-- The boolean mask on lines 174-176: row `b` of the reference table agrees
with row `a` on the MatchKey `(helper_lastname, helper_firstname,
helper_dob)` under pandas equality. -/
def matchKeyEq (b a : Row) : Bool :=
  valueEq (rowGet b "helper_lastname") (rowGet a "helper_lastname") &&
  valueEq (rowGet b "helper_firstname") (rowGet a "helper_firstname") &&
  valueEq (rowGet b "helper_dob") (rowGet a "helper_dob")

/-- `all_df[mask].any(axis=None)` on line 173-177: some cell of the selected
sub-frame is truthy. -/
def anyMatchTruthy (all_rows : List Row) (a : Row) : Bool :=
  (all_rows.filter (fun b => matchKeyEq b a)).any (fun b => b.any (fun p => truthy p.2))

/-- Lines 172-180 of `main.py`: per-row membership flag.  Iterating an empty
frame never touches the columns (so `isspecialed` is not created); on a
nonempty frame the first iteration already indexes the three helper columns
of both frames, raising `KeyError` when one is missing. -/
def flagLoop (filter_t all_t : Table) : Except String Table :=
  match filter_t.rows with
  | [] => Except.ok filter_t
  | _ :: _ =>
    if helperCols.all (fun c => all_t.cols.contains c) then
      if helperCols.all (fun c => filter_t.cols.contains c) then
        Except.ok (filter_t.setCol "isspecialed"
          (fun r => Value.bool (anyMatchTruthy all_t.rows r)))
      else Except.error "KeyError: helper column (filter)"
    else Except.error "KeyError: helper column (all)"

/-- Lines 148-186 of `main.py`: the matcher on two already-loaded tables.
`Except.error` models an uncaught Python exception. -/
def find_changed_students_core (parse : Value → Value) (filter0 all0 : Table) :
    Except String Table := do
  let filter1 ← standardize_dob parse filter0 (find_dob_field filter0)
  let all1 ← standardize_dob parse all0 (find_dob_field all0)
  let filter2 := addHelpers filter1
  let all2 := addHelpers all1
  let filter3 ← flagLoop filter2 all2
  if helperCols.all (fun c => filter3.cols.contains c) then
    Except.ok (filter3.dropCols helperCols)
  else
    Except.error "KeyError: drop"

/-- Substring containment after the fashion of Python `in` on strings. -/
def containsSub (sub s : String) : Bool :=
  decide (sub.toList <:+: s.toList)

/-- Lines 84-99 of `main.py`: the header-line predicate on one lower-cased
line. -/
def headerLine (line : String) : Bool :=
  let line_lower := strToLower line
  let has_name := containsSub "name" line_lower
  let has_firstname := containsSub "firstname" line_lower
  let has_lastname := containsSub "lastname" line_lower
  let name_condition := has_name || (has_firstname && has_lastname)
  let has_dob := containsSub "dob" line_lower
  let has_date_of_birth := containsSub "date of birth" line_lower
  let has_birthdate := containsSub "birthdate" line_lower
  let dob_condition := has_dob || has_date_of_birth || has_birthdate
  name_condition && dob_condition

/-- Lines 71-107 of `main.py`: zero-based index of the first line satisfying
the header predicate; `none` both when no line qualifies and when the file
cannot be opened or decoded (the `except` branches), never an exception. -/
def find_header_start : Option (List String) → Option Nat
  | none => none
  | some lines => lines.findIdx? headerLine

/-- First-occurrence order of the characters of a list, as a Python `dict`
built by insertion preserves it. -/
def insertOrder (cs : List Char) : List Char :=
  cs.foldl (fun acc c => if acc.contains c then acc else acc ++ [c]) []

/-- Characters of the first `n` lines, in reading order (newline separators
are not represented; the newline character is not a candidate delimiter and
non-candidates never affect which candidate is returned). -/
def charsOfFirst (lines : List String) (n : Nat) : List Char :=
  ((lines.take n).map String.toList).flatten

/-- Stable insertion, descending by count: the new item goes in front of the
first strictly smaller count, after earlier items of equal count. -/
def insertByCount (x : Char × Nat) : List (Char × Nat) → List (Char × Nat)
  | [] => [x]
  | y :: ys => if y.2 ≤ x.2 then x :: y :: ys else y :: insertByCount x ys

/-- Stable sort descending by count, matching Python
`sorted(items, key=count, reverse=True)` (stable, equal counts keep
insertion order). -/
def sortByCountDesc : List (Char × Nat) → List (Char × Nat)
  | [] => []
  | x :: xs => insertByCount x (sortByCountDesc xs)

/-- Lines 36-68 of `main.py`: frequency-analysis fallback.  The input is the
file's decoded lines (`none` = the file could not be read with the fixed
default encoding, the function's `except` branch, returning `None`).  Counts
every character of the first `num_lines` lines, sorts the (first-occurrence
ordered) character counts descending, keeps the candidates `,`, tab, `;`
with positive count and returns the first, `none` when there is none. -/
def analyze_most_common_delimiter (file : Option (List String)) (num_lines : Nat) :
    Option Char :=
  match file with
  | none => none
  | some lines =>
    let chars := charsOfFirst lines num_lines
    let delimiter_counts := (insertOrder chars).map (fun c => (c, chars.count c))
    if delimiter_counts.isEmpty then none
    else
      let sorted_delimiters := sortByCountDesc delimiter_counts
      let potential_delimiters :=
        (sorted_delimiters.filter
          (fun it => ([',', '\t', ';'].contains it.1) && it.2 > 0)).map (fun it => it.1)
      potential_delimiters.head?

/-- Lines 24-33 of `main.py`: `primary` is the outcome of the external
`csv.Sniffer` call (`none` models any exception it raises); on failure the
frequency-analysis fallback runs on `num_lines_fallback` lines. -/
def detect_delimiter (primary : Option Char) (file : Option (List String))
    (num_lines_fallback : Nat) : Option Char :=
  match primary with
  | some d => some d
  | none => analyze_most_common_delimiter file num_lines_fallback

/-- Lines 117-133 of `main.py`: the table loader.  `parsed` stands for the
outcome of the external `pd.read_csv` call with lower-cased column names
(`none` = parse failure, caught and logged); the loader returns no table
whenever the header cannot be located or parsing fails. -/
def read_csv_with_detections (file : Option (List String)) (parsed : Option Table) :
    Option Table :=
  match find_header_start file with
  | some _ => parsed
  | none => none

/-- Lines 141-186 of `main.py` end to end: load both files, return `none`
(Python `None`) when either load fails, otherwise run the matcher core
(whose `Except.error` models an uncaught exception). -/
def find_changed_students (parse : Value → Value) (fileA fileB : Option (List String))
    (parsedA parsedB : Option Table) : Option (Except String Table) :=
  match read_csv_with_detections fileA parsedA, read_csv_with_detections fileB parsedB with
  | some a, some b => some (find_changed_students_core parse a b)
  | _, _ => none

/-- Date recognizer used to instantiate `parse` on concrete inputs: a string
already in canonical `YYYY-MM-DD` shape is returned unchanged (`to_datetime`
parses it and `strftime` reproduces it), everything else is treated as
unparseable and becomes null (`errors="coerce"` yields `NaT`, which
`strftime` maps to a missing value). -/
def isCanonicalDate (s : String) : Bool :=
  match s.toList with
  | [y1, y2, y3, y4, h1, m1, m2, h2, d1, d2] =>
    y1.isDigit && y2.isDigit && y3.isDigit && y4.isDigit &&
    (h1 = '-') && m1.isDigit && m2.isDigit && (h2 = '-') && d1.isDigit && d2.isDigit
  | _ => false

/-- Concrete stand-in for the external pandas date normalization. -/
def parseCanonical : Value → Value
  | Value.str s => if isCanonicalDate s then Value.str s else Value.null
  | _ => Value.null

/-! ## Association-list lemmas for rows -/

theorem setAssoc_cons (p : String × Value) (r : Row) (c : String) (v : Value) :
    setAssoc (p :: r) c v = (if p.1 == c then (c, v) else p) :: setAssoc r c v := rfl

theorem keys_setAssoc (r : Row) (c : String) (v : Value) :
    (setAssoc r c v).map Prod.fst = r.map Prod.fst := by
  induction r with
  | nil => rfl
  | cons p r ih =>
    rw [setAssoc_cons, List.map_cons, List.map_cons, ih]
    cases hb : (p.1 == c) with
    | true =>
      have hk : p.1 = c := eq_of_beq hb
      rw [if_pos rfl]
      simp [hk]
    | false =>
      rw [if_neg Bool.false_ne_true]

theorem lookup_setAssoc_self (r : Row) (c : String) (v : Value)
    (h : c ∈ r.map Prod.fst) : List.lookup c (setAssoc r c v) = some v := by
  induction r with
  | nil => simp at h
  | cons p r ih =>
    obtain ⟨k, w⟩ := p
    rw [setAssoc_cons]
    cases hb : (k == c) with
    | true =>
      rw [if_pos rfl, List.lookup_cons]
      simp
    | false =>
      rw [if_neg Bool.false_ne_true, List.lookup_cons]
      have hne : k ≠ c := by simpa using hb
      have hcb : (c == k) = false := by simpa using (Ne.symm hne)
      rw [hcb]
      have hc : c ∈ r.map Prod.fst := by
        rw [List.map_cons] at h
        rcases List.mem_cons.mp h with h1 | h1
        · exact absurd h1.symm hne
        · exact h1
      exact ih hc

theorem lookup_setAssoc_ne (r : Row) (c d : String) (v : Value) (h : d ≠ c) :
    List.lookup d (setAssoc r c v) = List.lookup d r := by
  induction r with
  | nil => rfl
  | cons p r ih =>
    obtain ⟨k, w⟩ := p
    rw [setAssoc_cons]
    cases hb : (k == c) with
    | true =>
      have hk : k = c := eq_of_beq hb
      rw [if_pos rfl, List.lookup_cons, List.lookup_cons]
      have h1 : (d == c) = false := by simpa using h
      have h2 : (d == k) = false := by simpa [hk] using h
      rw [h1, h2]
      exact ih
    | false =>
      rw [if_neg Bool.false_ne_true, List.lookup_cons, List.lookup_cons]
      cases hd : (d == k) with
      | true => rfl
      | false => exact ih

theorem keys_filterPred (q : String → Bool) (r : Row) :
    (r.filter (fun p => q p.1)).map Prod.fst = (r.map Prod.fst).filter q := by
  induction r with
  | nil => rfl
  | cons p r ih =>
    rw [List.filter_cons, List.map_cons, List.filter_cons]
    cases hq : q p.1 with
    | true => rw [if_pos (by simpa using hq), if_pos rfl, List.map_cons, ih]
    | false =>
      rw [if_neg (by simp [hq]), if_neg Bool.false_ne_true]
      exact ih

theorem lookup_filterPred_of_true (q : String → Bool) (r : Row) (c : String)
    (h : q c = true) :
    List.lookup c (r.filter (fun p => q p.1)) = List.lookup c r := by
  induction r with
  | nil => rfl
  | cons p r ih =>
    obtain ⟨k, w⟩ := p
    rw [List.filter_cons]
    cases hqk : q k with
    | true =>
      rw [if_pos (by simpa using hqk), List.lookup_cons, List.lookup_cons]
      cases hb : (c == k) with
      | true => rfl
      | false => exact ih
    | false =>
      rw [if_neg (by simp [hqk]), List.lookup_cons]
      have hne : c ≠ k := fun he => by rw [he, hqk] at h; exact Bool.false_ne_true h
      have hcb : (c == k) = false := by simpa using hne
      rw [hcb]
      exact ih

theorem lookup_filterPred_of_false (q : String → Bool) (r : Row) (c : String)
    (h : q c = false) :
    List.lookup c (r.filter (fun p => q p.1)) = none := by
  induction r with
  | nil => rfl
  | cons p r ih =>
    obtain ⟨k, w⟩ := p
    rw [List.filter_cons]
    cases hqk : q k with
    | true =>
      rw [if_pos (by simpa using hqk), List.lookup_cons]
      have hne : c ≠ k := fun he => by rw [he, hqk] at h; exact Bool.noConfusion h
      have hcb : (c == k) = false := by simpa using hne
      rw [hcb]
      exact ih
    | false =>
      rw [if_neg (by simp [hqk])]
      exact ih

theorem lookup_eq_none_of_not_mem (r : Row) (c : String) (h : ¬ c ∈ r.map Prod.fst) :
    List.lookup c r = none := by
  rw [List.lookup_eq_none_iff]
  intro p hp
  have hm : p.1 ∈ r.map Prod.fst := List.mem_map_of_mem Prod.fst hp
  have hne : c ≠ p.1 := fun he => h (he ▸ hm)
  simpa using hne

theorem mem_of_lookup_eq_some {r : Row} {c : String} {v : Value}
    (h : List.lookup c r = some v) : (c, v) ∈ r := by
  rw [List.lookup_eq_some_iff] at h
  obtain ⟨l₁, l₂, rfl, -⟩ := h
  simp

/-! ## Table-level lemmas -/

theorem setCol_spec {t : Table} (hWF : t.WF) (c : String) (f : Row → Value) :
    (t.setCol c f).WF ∧
    (∀ d, d ∈ (t.setCol c f).cols ↔ (d ∈ t.cols ∨ d = c)) ∧
    (t.setCol c f).rows.length = t.rows.length ∧
    (∀ (i : Nat) (r : Row), t.rows[i]? = some r →
      ∃ r', (t.setCol c f).rows[i]? = some r' ∧
        List.lookup c r' = some (f r) ∧
        (∀ d, d ≠ c → List.lookup d r' = List.lookup d r)) := by
  by_cases hc : t.cols.contains c
  case pos =>
    have hmem : c ∈ t.cols := by simpa using hc
    have he : t.setCol c f = ⟨t.cols, t.rows.map (fun r => setAssoc r c (f r))⟩ := by
      unfold Table.setCol
      rw [if_pos hc]
    rw [he]
    refine ⟨?_, ?_, by simp, ?_⟩
    · intro r' hr'
      simp only [List.mem_map] at hr'
      obtain ⟨r0, hr0, rfl⟩ := hr'
      rw [keys_setAssoc]
      exact hWF r0 hr0
    · intro d
      constructor
      · intro hd
        exact Or.inl hd
      · rintro (hd | rfl)
        · exact hd
        · exact hmem
    · intro i r hr
      refine ⟨setAssoc r c (f r), ?_, ?_, ?_⟩
      · simp [hr]
      · have : c ∈ r.map Prod.fst := by
          rw [hWF r (List.getElem?_mem hr)]
          exact hmem
        exact lookup_setAssoc_self r c (f r) this
      · intro d hd
        exact lookup_setAssoc_ne r c d (f r) hd
  case neg =>
    have hcf : t.cols.contains c = false := by simpa using hc
    have hmem : ¬ c ∈ t.cols := by simpa using hc
    have he : t.setCol c f = ⟨t.cols ++ [c], t.rows.map (fun r => r ++ [(c, f r)])⟩ := by
      unfold Table.setCol
      rw [if_neg hc]
    rw [he]
    refine ⟨?_, ?_, by simp, ?_⟩
    · intro r' hr'
      simp only [List.mem_map] at hr'
      obtain ⟨r0, hr0, rfl⟩ := hr'
      rw [List.map_append]
      rw [hWF r0 hr0]
      rfl
    · intro d
      simp only [List.mem_append, List.mem_singleton]
    · intro i r hr
      have hkeys : ¬ c ∈ r.map Prod.fst := by
        rw [hWF r (List.getElem?_mem hr)]
        exact hmem
      refine ⟨r ++ [(c, f r)], by simp [hr], ?_, ?_⟩
      · rw [List.lookup_append, lookup_eq_none_of_not_mem r c hkeys]
        simp
      · intro d hd
        rw [List.lookup_append]
        have h2 : List.lookup d [(c, f r)] = none := by
          rw [List.lookup_cons]
          have : (d == c) = false := by simpa using hd
          rw [this]
          rfl
        rw [h2, Option.or_none]

theorem dropCols_spec {t : Table} (hWF : t.WF) (cs : List String) :
    (t.dropCols cs).WF ∧
    (t.dropCols cs).cols = t.cols.filter (fun c => !cs.contains c) ∧
    (t.dropCols cs).rows.length = t.rows.length ∧
    (∀ (i : Nat) (r : Row), t.rows[i]? = some r →
      ∃ r', (t.dropCols cs).rows[i]? = some r' ∧
        (∀ c, cs.contains c = false → List.lookup c r' = List.lookup c r) ∧
        (∀ c, cs.contains c = true → List.lookup c r' = none)) := by
  refine ⟨?_, rfl, by simp [Table.dropCols], ?_⟩
  · intro r' hr'
    simp only [Table.dropCols, List.mem_map] at hr'
    obtain ⟨r0, hr0, rfl⟩ := hr'
    have hk := keys_filterPred (fun k => !cs.contains k) r0
    simp only [Table.dropCols]
    rw [hk, hWF r0 hr0]
  · intro i r hr
    refine ⟨r.filter (fun p => !cs.contains p.1), by simp [Table.dropCols, hr], ?_, ?_⟩
    · intro c hcf
      exact lookup_filterPred_of_true (fun k => !cs.contains k) r c (by show (!cs.contains c) = true; rw [hcf]; rfl)
    · intro c hct
      exact lookup_filterPred_of_false (fun k => !cs.contains k) r c (by show (!cs.contains c) = false; rw [hct]; rfl)

/-! ## Stage decomposition of addHelpers -/

/-- The combined-name branch of lines 155-162 as a standalone stage. -/
def nameStage (t : Table) : Table :=
  if t.cols.contains "name" then
    (((t.setCol "helper_firstname" (fun r => firstTokenV (rowGet r "name"))).setCol
        "helper_lastname" (fun r => suffixLastV (rowGet r "name"))).dropCols ["name"])
  else t

/-- A conditional column derivation (lines 163-166 and 167-170). -/
def condStage (t : Table) (cond target : String) (g : Row → Value) : Table :=
  if t.cols.contains cond then t.setCol target g else t

theorem addHelpers_eq (t : Table) :
    addHelpers t =
      condStage (condStage (nameStage t) "lastname" "helper_lastname"
          (fun r => suffixLastV (rowGet r "lastname")))
        "firstname" "helper_firstname" (fun r => firstTokenV (rowGet r "firstname")) := rfl

theorem condStage_spec {t : Table} (hWF : t.WF) (cond target : String) (g : Row → Value) :
    (condStage t cond target g).WF ∧
    (condStage t cond target g).rows.length = t.rows.length ∧
    (∀ d, d ∈ (condStage t cond target g).cols ↔
      (d ∈ t.cols ∨ (cond ∈ t.cols ∧ d = target))) ∧
    (∀ (i : Nat) (r : Row), t.rows[i]? = some r →
      ∃ r', (condStage t cond target g).rows[i]? = some r' ∧
        (∀ d, d ≠ target → List.lookup d r' = List.lookup d r) ∧
        (cond ∈ t.cols → List.lookup target r' = some (g r)) ∧
        (¬ cond ∈ t.cols → List.lookup target r' = List.lookup target r)) := by
  by_cases hc : t.cols.contains cond
  case pos =>
    have hcm : cond ∈ t.cols := by simpa using hc
    have he : condStage t cond target g = t.setCol target g := by
      unfold condStage
      rw [if_pos hc]
    obtain ⟨w1, w2, w3, w4⟩ := setCol_spec hWF target g
    rw [he]
    refine ⟨w1, w3, ?_, ?_⟩
    · intro d
      rw [w2 d]
      constructor
      · rintro (hd | rfl)
        · exact Or.inl hd
        · exact Or.inr ⟨hcm, rfl⟩
      · rintro (hd | ⟨-, rfl⟩)
        · exact Or.inl hd
        · exact Or.inr rfl
    · intro i r hr
      obtain ⟨r', hr', hv, hkeep⟩ := w4 i r hr
      exact ⟨r', hr', hkeep, fun _ => hv, fun hcon => absurd hcm hcon⟩
  case neg =>
    have hcm : ¬ cond ∈ t.cols := by simpa using hc
    have he : condStage t cond target g = t := by
      unfold condStage
      rw [if_neg hc]
    rw [he]
    refine ⟨hWF, rfl, ?_, ?_⟩
    · intro d
      constructor
      · intro hd
        exact Or.inl hd
      · rintro (hd | ⟨hcon, -⟩)
        · exact hd
        · exact absurd hcon hcm
    · intro i r hr
      exact ⟨r, hr, fun d _ => rfl, fun hcon => absurd hcon hcm, fun _ => rfl⟩

theorem nameStage_spec {t : Table} (hWF : t.WF)
    (hhl : ¬ "helper_lastname" ∈ t.cols) (hhf : ¬ "helper_firstname" ∈ t.cols) :
    (nameStage t).WF ∧
    (nameStage t).rows.length = t.rows.length ∧
    (∀ d, d ∈ (nameStage t).cols ↔
      ((d ∈ t.cols ∧ d ≠ "name") ∨
       ("name" ∈ t.cols ∧ (d = "helper_firstname" ∨ d = "helper_lastname")))) ∧
    (∀ (i : Nat) (r : Row), t.rows[i]? = some r →
      ∃ r', (nameStage t).rows[i]? = some r' ∧
        (∀ d, d ≠ "name" → d ≠ "helper_firstname" → d ≠ "helper_lastname" →
          List.lookup d r' = List.lookup d r) ∧
        ("name" ∈ t.cols →
          List.lookup "helper_lastname" r' = some (suffixLastV (rowGet r "name")) ∧
          List.lookup "helper_firstname" r' = some (firstTokenV (rowGet r "name"))) ∧
        (¬ "name" ∈ t.cols →
          List.lookup "helper_lastname" r' = List.lookup "helper_lastname" r ∧
          List.lookup "helper_firstname" r' = List.lookup "helper_firstname" r)) := by
  by_cases hc : t.cols.contains "name"
  case pos =>
    have hcm : "name" ∈ t.cols := by simpa using hc
    have he : nameStage t =
        (((t.setCol "helper_firstname" (fun r => firstTokenV (rowGet r "name"))).setCol
            "helper_lastname" (fun r => suffixLastV (rowGet r "name"))).dropCols ["name"]) := by
      unfold nameStage
      rw [if_pos hc]
    obtain ⟨a1, a2, a3, a4⟩ := setCol_spec hWF "helper_firstname"
      (fun r => firstTokenV (rowGet r "name"))
    obtain ⟨b1, b2, b3, b4⟩ := setCol_spec a1 "helper_lastname"
      (fun r => suffixLastV (rowGet r "name"))
    obtain ⟨c1, c2, c3, c4⟩ := dropCols_spec b1 ["name"]
    rw [he]
    refine ⟨c1, ?_, ?_, ?_⟩
    · rw [c3, b3, a3]
    · intro d
      rw [c2]
      by_cases hd : d = "name"
      · subst hd
        simp only [List.mem_filter]
        constructor
        · rintro ⟨-, hco⟩
          simp at hco
        · rintro (⟨-, hne⟩ | ⟨-, (hne | hne)⟩) <;> simp at hne
      · constructor
        · intro hmem
          rw [List.mem_filter] at hmem
          have hdb : d ∈ t.cols ∨ d = "helper_firstname" ∨ d = "helper_lastname" := by
            rcases (b2 d).mp hmem.1 with hx | hx
            · rcases (a2 d).mp hx with hy | hy
              · exact Or.inl hy
              · exact Or.inr (Or.inl hy)
            · exact Or.inr (Or.inr hx)
          rcases hdb with hx | hx | hx
          · exact Or.inl ⟨hx, hd⟩
          · exact Or.inr ⟨hcm, Or.inl hx⟩
          · exact Or.inr ⟨hcm, Or.inr hx⟩
        · intro hmem
          rw [List.mem_filter]
          have hin : d ∈ (((t.setCol "helper_firstname"
              (fun r => firstTokenV (rowGet r "name"))).setCol
                "helper_lastname" (fun r => suffixLastV (rowGet r "name")))).cols := by
            rcases hmem with ⟨hx, -⟩ | ⟨-, (hx | hx)⟩
            · exact (b2 d).mpr (Or.inl ((a2 d).mpr (Or.inl hx)))
            · exact (b2 d).mpr (Or.inl ((a2 d).mpr (Or.inr hx)))
            · exact (b2 d).mpr (Or.inr hx)
          refine ⟨hin, ?_⟩
          simpa using hd
    · intro i r hr
      obtain ⟨r1, hr1, hv1, hk1⟩ := a4 i r hr
      obtain ⟨r2, hr2, hv2, hk2⟩ := b4 i r1 hr1
      obtain ⟨r3, hr3, hk3, hd3⟩ := c4 i r2 hr2
      refine ⟨r3, hr3, ?_, ?_, ?_⟩
      · intro d hdn hdf hdl
        rw [hk3 d (by simpa using hdn), hk2 d hdl, hk1 d hdf]
      · intro _
        constructor
        · rw [hk3 "helper_lastname" (by simp), hv2]
          have : rowGet r1 "name" = rowGet r "name" := by
            unfold rowGet
            rw [hk1 "name" (by simp)]
          rw [this]
        · rw [hk3 "helper_firstname" (by simp), hk2 "helper_firstname" (by simp), hv1]
      · intro hcon
        exact absurd hcm hcon
  case neg =>
    have hcm : ¬ "name" ∈ t.cols := by simpa using hc
    have he : nameStage t = t := by
      unfold nameStage
      rw [if_neg hc]
    rw [he]
    refine ⟨hWF, rfl, ?_, ?_⟩
    · intro d
      constructor
      · intro hd
        refine Or.inl ⟨hd, ?_⟩
        rintro rfl
        exact hcm hd
      · rintro (⟨hd, -⟩ | ⟨hcon, -⟩)
        · exact hd
        · exact absurd hcon hcm
    · intro i r hr
      exact ⟨r, hr, fun d _ _ _ => rfl, fun hcon => absurd hcon hcm,
        fun _ => ⟨rfl, rfl⟩⟩

/-! ## The normalization pipeline on one table -/

/-- Lines 151-170 applied to one loaded table with dob column `f`:
`standardize_dob` (in its success case) followed by the helper-name
derivation. -/
def normalizeTable (parse : Value → Value) (t : Table) (f : String) : Table :=
  addHelpers (t.setCol "helper_dob" (fun r => parse (rowGet r f)))

theorem normalizeTable_spec (parse : Value → Value) (t : Table) (f : String)
    (hWF : t.WF)
    (hh : ∀ c ∈ helperCols, ¬ c ∈ t.cols)
    (hln : "name" ∈ t.cols ∨ "lastname" ∈ t.cols)
    (hfn : "name" ∈ t.cols ∨ "firstname" ∈ t.cols) :
    (normalizeTable parse t f).WF ∧
    (normalizeTable parse t f).rows.length = t.rows.length ∧
    (∀ d, d ∈ (normalizeTable parse t f).cols ↔
      ((d ∈ t.cols ∧ d ≠ "name") ∨ d ∈ helperCols)) ∧
    (∀ (i : Nat) (r : Row), t.rows[i]? = some r →
      ∃ r', (normalizeTable parse t f).rows[i]? = some r' ∧
        (∀ d, d ∈ t.cols → d ≠ "name" → ¬ d ∈ helperCols →
          List.lookup d r' = List.lookup d r) ∧
        List.lookup "helper_dob" r' = some (parse (rowGet r f)) ∧
        (∃ w, List.lookup "helper_lastname" r' = some (suffixLastV w)) ∧
        (∃ w, List.lookup "helper_firstname" r' = some (firstTokenV w))) ∧
    (∀ b ∈ (normalizeTable parse t f).rows,
      ∃ w, List.lookup "helper_lastname" b = some (suffixLastV w)) := by
  have hhl : ¬ "helper_lastname" ∈ t.cols := hh _ (by simp [helperCols])
  have hhf : ¬ "helper_firstname" ∈ t.cols := hh _ (by simp [helperCols])
  obtain ⟨s1, s2, s3, s4⟩ := setCol_spec hWF "helper_dob" (fun r => parse (rowGet r f))
  set t0 := t.setCol "helper_dob" (fun r => parse (rowGet r f)) with ht0
  have hhl0 : ¬ "helper_lastname" ∈ t0.cols := by
    rw [s2]
    rintro (hx | hx)
    · exact hhl hx
    · exact absurd hx (by decide)
  have hhf0 : ¬ "helper_firstname" ∈ t0.cols := by
    rw [s2]
    rintro (hx | hx)
    · exact hhf hx
    · exact absurd hx (by decide)
  have hname0 : "name" ∈ t0.cols ↔ "name" ∈ t.cols := by
    rw [s2]
    constructor
    · rintro (hx | hx)
      · exact hx
      · exact absurd hx (by decide)
    · exact Or.inl
  obtain ⟨n1, n2, n3, n4⟩ := nameStage_spec s1 hhl0 hhf0
  set t1 := nameStage t0 with ht1
  have hlast1 : "lastname" ∈ t1.cols ↔ "lastname" ∈ t.cols := by
    rw [n3]
    constructor
    · rintro (⟨hx, -⟩ | ⟨-, (hx | hx)⟩)
      · rcases (s2 _).mp hx with hy | hy
        · exact hy
        · exact absurd hy (by decide)
      · exact absurd hx (by decide)
      · exact absurd hx (by decide)
    · intro hx
      exact Or.inl ⟨(s2 _).mpr (Or.inl hx), by decide⟩
  obtain ⟨l1, l2, l3, l4⟩ := condStage_spec n1 "lastname" "helper_lastname"
    (fun r => suffixLastV (rowGet r "lastname"))
  set t2 := condStage t1 "lastname" "helper_lastname"
    (fun r => suffixLastV (rowGet r "lastname")) with ht2
  have hfirst2 : "firstname" ∈ t2.cols ↔ "firstname" ∈ t.cols := by
    rw [l3]
    constructor
    · rintro (hx | ⟨-, hx⟩)
      · rcases (n3 _).mp hx with ⟨hy, -⟩ | ⟨-, (hy | hy)⟩
        · rcases (s2 _).mp hy with hz | hz
          · exact hz
          · exact absurd hz (by decide)
        · exact absurd hy (by decide)
        · exact absurd hy (by decide)
      · exact absurd hx (by decide)
    · intro hx
      exact Or.inl ((n3 _).mpr (Or.inl ⟨(s2 _).mpr (Or.inl hx), by decide⟩))
  obtain ⟨q1, q2, q3, q4⟩ := condStage_spec l1 "firstname" "helper_firstname"
    (fun r => firstTokenV (rowGet r "firstname"))
  have heq : normalizeTable parse t f =
      condStage t2 "firstname" "helper_firstname"
        (fun r => firstTokenV (rowGet r "firstname")) := rfl
  rw [heq]
  have hlen : (condStage t2 "firstname" "helper_firstname"
      (fun r => firstTokenV (rowGet r "firstname"))).rows.length = t.rows.length := by
    rw [q2, l2, n2, s3]
  have hcols : ∀ d, d ∈ (condStage t2 "firstname" "helper_firstname"
      (fun r => firstTokenV (rowGet r "firstname"))).cols ↔
      ((d ∈ t.cols ∧ d ≠ "name") ∨ d ∈ helperCols) := by
    intro d
    constructor
    · intro hmem
      rcases (q3 d).mp hmem with hx | ⟨-, rfl⟩
      · rcases (l3 d).mp hx with hy | ⟨-, rfl⟩
        · rcases (n3 d).mp hy with ⟨hz, hne⟩ | ⟨-, (rfl | rfl)⟩
          · rcases (s2 d).mp hz with hw | rfl
            · exact Or.inl ⟨hw, hne⟩
            · exact Or.inr (by simp [helperCols])
          · exact Or.inr (by simp [helperCols])
          · exact Or.inr (by simp [helperCols])
        · exact Or.inr (by simp [helperCols])
      · exact Or.inr (by simp [helperCols])
    · rintro (⟨hx, hne⟩ | hx)
      · exact (q3 d).mpr (Or.inl ((l3 d).mpr (Or.inl ((n3 d).mpr
          (Or.inl ⟨(s2 d).mpr (Or.inl hx), hne⟩)))))
      · have hd3 : d = "helper_lastname" ∨ d = "helper_firstname" ∨ d = "helper_dob" := by
          simpa [helperCols] using hx
        rcases hd3 with rfl | rfl | rfl
        · by_cases hl : "lastname" ∈ t.cols
          · exact (q3 _).mpr (Or.inl ((l3 _).mpr (Or.inr ⟨hlast1.mpr hl, rfl⟩)))
          · have hnm : "name" ∈ t.cols := hln.resolve_right hl
            exact (q3 _).mpr (Or.inl ((l3 _).mpr (Or.inl ((n3 _).mpr
              (Or.inr ⟨hname0.mpr hnm, Or.inr rfl⟩)))))
        · by_cases hf2 : "firstname" ∈ t.cols
          · exact (q3 _).mpr (Or.inr ⟨hfirst2.mpr hf2, rfl⟩)
          · have hnm : "name" ∈ t.cols := hfn.resolve_right hf2
            exact (q3 _).mpr (Or.inl ((l3 _).mpr (Or.inl ((n3 _).mpr
              (Or.inr ⟨hname0.mpr hnm, Or.inl rfl⟩)))))
        · exact (q3 _).mpr (Or.inl ((l3 _).mpr (Or.inl ((n3 _).mpr
            (Or.inl ⟨(s2 _).mpr (Or.inr rfl), by decide⟩)))))
  have hrows : ∀ (i : Nat) (r : Row), t.rows[i]? = some r →
      ∃ r', (condStage t2 "firstname" "helper_firstname"
          (fun r => firstTokenV (rowGet r "firstname"))).rows[i]? = some r' ∧
        (∀ d, d ∈ t.cols → d ≠ "name" → ¬ d ∈ helperCols →
          List.lookup d r' = List.lookup d r) ∧
        List.lookup "helper_dob" r' = some (parse (rowGet r f)) ∧
        (∃ w, List.lookup "helper_lastname" r' = some (suffixLastV w)) ∧
        (∃ w, List.lookup "helper_firstname" r' = some (firstTokenV w)) := by
    intro i r hr
    obtain ⟨r0, hr0, hv0, hk0⟩ := s4 i r hr
    obtain ⟨r1, hr1, hk1, hpos1, hneg1⟩ := n4 i r0 hr0
    obtain ⟨r2, hr2, hk2, hpos2, hneg2⟩ := l4 i r1 hr1
    obtain ⟨r3, hr3, hk3, hpos3, hneg3⟩ := q4 i r2 hr2
    refine ⟨r3, hr3, ?_, ?_, ?_, ?_⟩
    · intro d hd hne hnh
      have e1 : d ≠ "helper_lastname" := fun he => hnh (by rw [he]; simp [helperCols])
      have e2 : d ≠ "helper_firstname" := fun he => hnh (by rw [he]; simp [helperCols])
      have e3 : d ≠ "helper_dob" := fun he => hnh (by rw [he]; simp [helperCols])
      rw [hk3 d e2, hk2 d e1, hk1 d hne e2 e1, hk0 d e3]
    · rw [hk3 _ (by decide), hk2 _ (by decide), hk1 _ (by decide) (by decide) (by decide)]
      exact hv0
    · by_cases hl : "lastname" ∈ t.cols
      · refine ⟨rowGet r1 "lastname", ?_⟩
        rw [hk3 _ (by decide)]
        exact hpos2 (hlast1.mpr hl)
      · have hnm : "name" ∈ t.cols := hln.resolve_right hl
        refine ⟨rowGet r0 "name", ?_⟩
        rw [hk3 _ (by decide), hneg2 (fun hc => hl (hlast1.mp hc))]
        exact (hpos1 (hname0.mpr hnm)).1
    · by_cases hf2 : "firstname" ∈ t.cols
      · exact ⟨rowGet r2 "firstname", hpos3 (hfirst2.mpr hf2)⟩
      · have hnm : "name" ∈ t.cols := hfn.resolve_right hf2
        refine ⟨rowGet r0 "name", ?_⟩
        rw [hneg3 (fun hc => hf2 (hfirst2.mp hc)), hk2 _ (by decide)]
        exact (hpos1 (hname0.mpr hnm)).2
  refine ⟨q1, hlen, hcols, hrows, ?_⟩
  intro b hb
  obtain ⟨i, hib⟩ := List.mem_iff_getElem?.mp hb
  have hi : i < t.rows.length := by
    have h1 : i < (condStage t2 "firstname" "helper_firstname"
        (fun r => firstTokenV (rowGet r "firstname"))).rows.length := by
      rw [List.getElem?_eq_some_iff] at hib
      exact hib.1
    rwa [hlen] at h1
  obtain ⟨r', hr', -, -, hwl, -⟩ := hrows i (t.rows[i]) (List.getElem?_eq_getElem hi)
  have hbr : r' = b := by
    rw [hib] at hr'
    exact (Option.some.inj hr').symm
  rw [← hbr]
  exact hwl

/-! ## Range of the derived name values -/

theorem pySplit_mem_not_empty {s x : String} (hx : x ∈ pySplit s) : x.isEmpty = false := by
  unfold pySplit at hx
  rw [List.mem_map] at hx
  obtain ⟨t, ht, rfl⟩ := hx
  rw [List.mem_filter] at ht
  have h2 : t.isEmpty = false := by simpa using ht.2
  have h3 : t ≠ [] := by
    intro hc
    rw [hc] at h2
    exact Bool.noConfusion h2
  cases hmk : (String.mk t).isEmpty with
  | false => rfl
  | true =>
    have hs : String.mk t = "" := (String.isEmpty_iff _).mp (by rw [hmk])
    have hdata : t = [] := congrArg String.data hs
    exact absurd hdata h3

theorem handle_suffix_lastname_not_empty {s t : String}
    (h : handle_suffix_lastname s = some t) : t.isEmpty = false := by
  simp only [handle_suffix_lastname] at h
  split at h
  · exact absurd h (by simp)
  next hp =>
    split at h
    next hcond =>
      have ht : t = String.intercalate " " ((pySplit s).drop ((pySplit s).length - 2)) :=
        (Option.some.inj h).symm
      obtain ⟨-, hc2⟩ := hcond
      have hlen2 : ((pySplit s).drop ((pySplit s).length - 2)).length = 2 := by
        rw [List.length_drop]
        omega
      obtain ⟨a, b, hab⟩ := List.length_eq_two.mp hlen2
      rw [hab] at ht
      have ht2 : t = a ++ " " ++ b := by rw [ht]; rfl
      have hsp : (" " : String).length = 1 := rfl
      have hlen1 : 1 ≤ t.length := by
        rw [ht2, String.length_append, String.length_append, hsp]
        omega
      cases hte : t.isEmpty with
      | false => rfl
      | true =>
        have hts : t = "" := (String.isEmpty_iff t).mp (by rw [hte])
        rw [hts] at hlen1
        simp at hlen1
    next hcond =>
      have ht : t = (pySplit s).getLast hp := (Option.some.inj h).symm
      have hm : t ∈ pySplit s := ht ▸ List.getLast_mem hp
      exact pySplit_mem_not_empty hm

theorem suffixLastV_range (v : Value) :
    suffixLastV v = Value.null ∨ ∃ s, suffixLastV v = Value.str s ∧ s.isEmpty = false := by
  cases v with
  | str s =>
    cases hh : handle_suffix_lastname s with
    | none =>
      refine Or.inl ?_
      simp [suffixLastV, hh]
    | some t =>
      refine Or.inr ⟨t, ?_, handle_suffix_lastname_not_empty hh⟩
      simp [suffixLastV, hh]
  | bool b => exact Or.inl rfl
  | null => exact Or.inl rfl

/-! ## Null-comparison lemmas (pandas equality) -/

theorem valueEq_null_left (v : Value) : valueEq Value.null v = false := by
  cases v <;> rfl

theorem valueEq_null_right (v : Value) : valueEq v Value.null = false := by
  cases v <;> rfl

theorem ne_null_of_valueEq_left {x y : Value} (h : valueEq x y = true) :
    x ≠ Value.null := by
  intro he
  rw [he, valueEq_null_left] at h
  exact Bool.noConfusion h

theorem ne_null_of_valueEq_right {x y : Value} (h : valueEq x y = true) :
    y ≠ Value.null := by
  intro he
  rw [he, valueEq_null_right] at h
  exact Bool.noConfusion h

/-! ## The membership test of the flag loop -/

theorem anyMatchTruthy_eq_any (rows : List Row) (a : Row)
    (hinv : ∀ b ∈ rows, ∃ w, List.lookup "helper_lastname" b = some (suffixLastV w)) :
    anyMatchTruthy rows a = rows.any (fun b => matchKeyEq b a) := by
  unfold anyMatchTruthy
  rw [List.any_filter]
  by_cases h : ∃ b ∈ rows, matchKeyEq b a = true
  · obtain ⟨b, hb, hm⟩ := h
    have htr : b.any (fun p => truthy p.2) = true := by
      obtain ⟨w, hw⟩ := hinv b hb
      have hveq : valueEq (rowGet b "helper_lastname") (rowGet a "helper_lastname") = true := by
        have hm' := hm
        unfold matchKeyEq at hm'
        exact (Bool.and_eq_true_iff.mp ((Bool.and_eq_true_iff.mp hm').1)).1
      have hg : rowGet b "helper_lastname" = suffixLastV w := by
        unfold rowGet
        rw [hw]
        rfl
      rcases suffixLastV_range w with hnull | ⟨s, hs, hse⟩
      · rw [hg, hnull, valueEq_null_left] at hveq
        exact Bool.noConfusion hveq
      · rw [List.any_eq_true]
        refine ⟨("helper_lastname", suffixLastV w), mem_of_lookup_eq_some hw, ?_⟩
        show truthy (suffixLastV w) = true
        rw [hs]
        show (!s.isEmpty) = true
        rw [hse]
        rfl
    have h1 : (rows.any fun x => matchKeyEq x a && x.any fun p => truthy p.2) = true := by
      rw [List.any_eq_true]
      exact ⟨b, hb, by rw [hm, htr]; rfl⟩
    have h2 : (rows.any fun b => matchKeyEq b a) = true :=
      List.any_eq_true.mpr ⟨b, hb, hm⟩
    rw [h1, h2]
  · have h2 : (rows.any fun b => matchKeyEq b a) = false := by
      rw [List.any_eq_false]
      intro b hb hm
      exact h ⟨b, hb, hm⟩
    have h1 : (rows.any fun x => matchKeyEq x a && x.any fun p => truthy p.2) = false := by
      rw [List.any_eq_false]
      intro b hb hm
      rw [Bool.and_eq_true_iff] at hm
      exact h ⟨b, hb, hm.1⟩
    rw [h1, h2]

/-! ## The flag loop and the matcher core -/

theorem flagLoop_spec {tf ta : Table} (hWF : tf.WF)
    (hta : ∀ c ∈ helperCols, c ∈ ta.cols)
    (htf : ∀ c ∈ helperCols, c ∈ tf.cols) :
    ∃ T, flagLoop tf ta = Except.ok T ∧ T.WF ∧
      T.rows.length = tf.rows.length ∧
      (∀ d, d ∈ T.cols ↔ (d ∈ tf.cols ∨ (tf.rows ≠ [] ∧ d = "isspecialed"))) ∧
      (∀ (i : Nat) (r : Row), tf.rows[i]? = some r →
        ∃ r', T.rows[i]? = some r' ∧
          (∀ d, d ≠ "isspecialed" → List.lookup d r' = List.lookup d r) ∧
          List.lookup "isspecialed" r' = some (Value.bool (anyMatchTruthy ta.rows r))) := by
  cases hrows : tf.rows with
  | nil =>
    refine ⟨tf, ?_, hWF, by rw [hrows], ?_, ?_⟩
    · unfold flagLoop
      rw [hrows]
    · intro d
      constructor
      · exact Or.inl
      · rintro (hd | ⟨hne, -⟩)
        · exact hd
        · exact absurd rfl hne
    · intro i r hr
      simp at hr
  | cons r0 rs =>
    have hta' : (helperCols.all fun c => ta.cols.contains c) = true := by
      rw [List.all_eq_true]
      intro c hc
      simpa using hta c hc
    have htf' : (helperCols.all fun c => tf.cols.contains c) = true := by
      rw [List.all_eq_true]
      intro c hc
      simpa using htf c hc
    have he : flagLoop tf ta = Except.ok (tf.setCol "isspecialed"
        (fun r => Value.bool (anyMatchTruthy ta.rows r))) := by
      unfold flagLoop
      rw [hrows]
      show (if helperCols.all (fun c => ta.cols.contains c) then
          if helperCols.all (fun c => tf.cols.contains c) then
            Except.ok (tf.setCol "isspecialed"
              (fun r => Value.bool (anyMatchTruthy ta.rows r)))
          else Except.error "KeyError: helper column (filter)"
        else Except.error "KeyError: helper column (all)") = _
      rw [if_pos hta', if_pos htf']
    obtain ⟨w1, w2, w3, w4⟩ := setCol_spec hWF "isspecialed"
      (fun r => Value.bool (anyMatchTruthy ta.rows r))
    refine ⟨_, he, w1, by rw [w3, hrows], ?_, ?_⟩
    · intro d
      rw [w2 d]
      constructor
      · rintro (hd | rfl)
        · exact Or.inl hd
        · exact Or.inr ⟨List.cons_ne_nil r0 rs, rfl⟩
      · rintro (hd | ⟨-, rfl⟩)
        · exact Or.inl hd
        · exact Or.inr rfl
    · intro i r hr
      obtain ⟨r', hr', hv, hk⟩ := w4 i r (by rw [hrows]; exact hr)
      exact ⟨r', hr', hk, hv⟩

theorem core_ok (parse : Value → Value) (A B : Table) (fA fB : String)
    (hWA : A.WF) (hWB : B.WF)
    (hdA : find_dob_field A = some fA) (hdB : find_dob_field B = some fB)
    (hhA : ∀ c ∈ helperCols, ¬ c ∈ A.cols) (hhB : ∀ c ∈ helperCols, ¬ c ∈ B.cols)
    (hlnA : "name" ∈ A.cols ∨ "lastname" ∈ A.cols)
    (hfnA : "name" ∈ A.cols ∨ "firstname" ∈ A.cols)
    (hlnB : "name" ∈ B.cols ∨ "lastname" ∈ B.cols)
    (hfnB : "name" ∈ B.cols ∨ "firstname" ∈ B.cols)
    (hsA : ¬ "isspecialed" ∈ A.cols) :
    ∃ T, find_changed_students_core parse A B = Except.ok T ∧ T.WF ∧
      T.rows.length = A.rows.length ∧
      (∀ d, d ∈ T.cols ↔
        ((d ∈ A.cols ∧ d ≠ "name") ∨ (A.rows ≠ [] ∧ d = "isspecialed"))) ∧
      (∀ (i : Nat) (r : Row), A.rows[i]? = some r →
        ∃ r' a', T.rows[i]? = some r' ∧
          (normalizeTable parse A fA).rows[i]? = some a' ∧
          (∀ d, d ∈ A.cols → d ≠ "name" → List.lookup d r' = List.lookup d r) ∧
          (∀ d, d ∈ helperCols → List.lookup d r' = none) ∧
          List.lookup "isspecialed" r' =
            some (Value.bool ((normalizeTable parse B fB).rows.any
              (fun b => matchKeyEq b a')))) := by
  obtain ⟨nA1, nA2, nA3, nA4, nA5⟩ := normalizeTable_spec parse A fA hWA hhA hlnA hfnA
  obtain ⟨nB1, nB2, nB3, nB4, nB5⟩ := normalizeTable_spec parse B fB hWB hhB hlnB hfnB
  have hfAc : (A.cols.contains fA) = true := List.find?_some hdA
  have hfBc : (B.cols.contains fB) = true := List.find?_some hdB
  have hstdA : standardize_dob parse A (find_dob_field A) =
      Except.ok (A.setCol "helper_dob" (fun r => parse (rowGet r fA))) := by
    rw [hdA]
    show (if A.cols.contains fA then
        Except.ok (A.setCol "helper_dob" (fun r => parse (rowGet r fA)))
      else Except.error "KeyError: dob field") = _
    rw [if_pos hfAc]
  have hstdB : standardize_dob parse B (find_dob_field B) =
      Except.ok (B.setCol "helper_dob" (fun r => parse (rowGet r fB))) := by
    rw [hdB]
    show (if B.cols.contains fB then
        Except.ok (B.setCol "helper_dob" (fun r => parse (rowGet r fB)))
      else Except.error "KeyError: dob field") = _
    rw [if_pos hfBc]
  have hhelpA : ∀ c ∈ helperCols, c ∈ (normalizeTable parse A fA).cols := by
    intro c hc
    exact (nA3 c).mpr (Or.inr hc)
  have hhelpB : ∀ c ∈ helperCols, c ∈ (normalizeTable parse B fB).cols := by
    intro c hc
    exact (nB3 c).mpr (Or.inr hc)
  obtain ⟨Tf, hTf, hTfWF, hTflen, hTfcols, hTfrows⟩ := flagLoop_spec nA1 hhelpB hhelpA
  have hTfhelp : (helperCols.all fun c => Tf.cols.contains c) = true := by
    rw [List.all_eq_true]
    intro c hc
    have : c ∈ Tf.cols := (hTfcols c).mpr (Or.inl (hhelpA c hc))
    simpa using this
  have hcore : find_changed_students_core parse A B =
      Except.ok (Tf.dropCols helperCols) := by
    unfold find_changed_students_core
    rw [hstdA, hstdB]
    show (do
      let filter3 ← flagLoop (normalizeTable parse A fA) (normalizeTable parse B fB)
      if helperCols.all (fun c => filter3.cols.contains c) then
        Except.ok (filter3.dropCols helperCols)
      else
        Except.error "KeyError: drop") = Except.ok (Tf.dropCols helperCols)
    rw [hTf]
    show (if helperCols.all (fun c => Tf.cols.contains c) then
        Except.ok (Tf.dropCols helperCols)
      else Except.error "KeyError: drop") = Except.ok (Tf.dropCols helperCols)
    rw [if_pos hTfhelp]
  obtain ⟨D1, D2, D3, D4⟩ := dropCols_spec hTfWF helperCols
  have hrowsne : (normalizeTable parse A fA).rows ≠ [] ↔ A.rows ≠ [] := by
    constructor
    · intro hne hcon
      apply hne
      rw [← List.length_eq_zero, nA2, List.length_eq_zero]
      exact hcon
    · intro hne hcon
      apply hne
      rw [← List.length_eq_zero, ← nA2, List.length_eq_zero]
      exact hcon
  refine ⟨Tf.dropCols helperCols, hcore, D1, ?_, ?_, ?_⟩
  · rw [D3, hTflen, nA2]
  · intro d
    rw [D2]
    rw [List.mem_filter]
    constructor
    · rintro ⟨hdT, hdh⟩
      have hdh' : ¬ d ∈ helperCols := by
        intro hc
        rw [(by simpa using hc : helperCols.contains d = true)] at hdh
        exact Bool.noConfusion hdh
      rcases (hTfcols d).mp hdT with hdn | ⟨hne, rfl⟩
      · rcases (nA3 d).mp hdn with hx | hx
        · exact Or.inl hx
        · exact absurd hx hdh'
      · exact Or.inr ⟨hrowsne.mp hne, rfl⟩
    · rintro (⟨hdA', hdn⟩ | ⟨hne, rfl⟩)
      · have hdh : ¬ d ∈ helperCols := fun hc => hhA d hc hdA'
        refine ⟨(hTfcols d).mpr (Or.inl ((nA3 d).mpr (Or.inl ⟨hdA', hdn⟩))), ?_⟩
        simpa using hdh
      · refine ⟨(hTfcols _).mpr (Or.inr ⟨hrowsne.mpr hne, rfl⟩), ?_⟩
        decide
  · intro i r hr
    obtain ⟨a', ha', hkeepA, hdobA, hlA, hfA'⟩ := nA4 i r hr
    obtain ⟨rf, hrf, hkf, hvf⟩ := hTfrows i a' ha'
    obtain ⟨rd, hrd, hkd, hnd⟩ := D4 i rf hrf
    refine ⟨rd, a', hrd, ha', ?_, ?_, ?_⟩
    · intro d hd hne
      have hdh : ¬ d ∈ helperCols := fun hc => hhA d hc hd
      have hds : d ≠ "isspecialed" := fun he => hsA (he ▸ hd)
      rw [hkd d (by simpa using hdh), hkf d hds, hkeepA d hd hne hdh]
    · intro d hd
      exact hnd d (by simpa using hd)
    · rw [hkd _ (by decide), hvf]
      rw [anyMatchTruthy_eq_any _ _ nB5]

/-! ## Concrete example tables -/

/-- A table whose one row has an unparseable date of birth. -/
def tblNullDob : Table := ⟨["lastname", "firstname", "dob"],
  [[("lastname", Value.str "Kim"), ("firstname", Value.str "Ann"),
    ("dob", Value.str "unknown")]]⟩

/-- Matcher output for `tblNullDob` against itself: the row is not flagged,
although the reference table contains the identical row (both DOBs are
null). -/
def tblNullDobOut : Table := ⟨["lastname", "firstname", "dob", "isspecialed"],
  [[("lastname", Value.str "Kim"), ("firstname", Value.str "Ann"),
    ("dob", Value.str "unknown"), ("isspecialed", Value.bool false)]]⟩

/-- A normalized row whose derived DOB is null. -/
def rowNullDob : Row :=
  [("helper_lastname", Value.str "Kim"), ("helper_firstname", Value.str "Ann"),
   ("helper_dob", Value.null)]

/-- C2: if any MatchKey component of either row is null (null derived DOB,
first name or last name), the two rows are never considered equal: pandas
equality returns false whenever either side is null, so `matchKeyEq` is
false; in particular a row with null DOB never matches a row that also has
null DOB — running the matcher on a one-row table with unparseable DOB
against itself flags the row false. -/
theorem null_never_matches :
    (∀ v, valueEq Value.null v = false) ∧
    (∀ v, valueEq v Value.null = false) ∧
    (∀ b a : Row,
      (rowGet b "helper_dob" = Value.null ∨ rowGet b "helper_firstname" = Value.null ∨
       rowGet b "helper_lastname" = Value.null ∨ rowGet a "helper_dob" = Value.null ∨
       rowGet a "helper_firstname" = Value.null ∨ rowGet a "helper_lastname" = Value.null) →
      matchKeyEq b a = false) ∧
    find_changed_students_core parseCanonical tblNullDob tblNullDob =
      Except.ok tblNullDobOut := by
  refine ⟨valueEq_null_left, valueEq_null_right, ?_, rfl⟩
  intro b a h
  unfold matchKeyEq
  rcases h with h | h | h | h | h | h <;>
    simp only [h, valueEq_null_left, valueEq_null_right,
      Bool.false_and, Bool.and_false]

/-- Witness for C2 at a concrete pair: a row with null derived DOB does not
match itself. -/
theorem null_never_matches_witness : matchKeyEq rowNullDob rowNullDob = false :=
  null_never_matches.2.2.1 rowNullDob rowNullDob (Or.inl rfl)

/-- The generational suffixes recognized by the last-name derivation. -/
def suffixTokens : List String :=
  ["jr", "sr", "ii", "iii", "iv", "v", "vi", "vii", "viii", "ix", "x"]

/-- C3: suffix-aware last-name derivation.  For a string split into
whitespace tokens: with at least 2 tokens whose final token lower-cases into
the suffix set, the result is the final two tokens joined by a single space;
otherwise it is the final token alone.  In particular "John Smith Jr" yields
first token "John" and derived last name "Smith Jr". -/
theorem suffix_lastname_spec :
    (∀ (s a b : String) (l : List String), pySplit s = l → 2 ≤ l.length →
      l[l.length - 2]? = some a → l[l.length - 1]? = some b →
      strToLower b ∈ suffixTokens →
      handle_suffix_lastname s = some (a ++ " " ++ b)) ∧
    (∀ (s b : String) (l : List String), pySplit s = l → l ≠ [] →
      l[l.length - 1]? = some b →
      ¬ (2 ≤ l.length ∧ strToLower b ∈ suffixTokens) →
      handle_suffix_lastname s = some b) ∧
    firstTokenV (Value.str "John Smith Jr") = Value.str "John" ∧
    suffixLastV (Value.str "John Smith Jr") = Value.str "Smith Jr" := by
  refine ⟨?_, ?_, rfl, rfl⟩
  · intro s a b l hps hlen ha hb hmem
    subst hps
    have hne : pySplit s ≠ [] := by
      intro hc
      rw [hc] at hlen
      simp at hlen
    have hlt : (pySplit s).length - 1 < (pySplit s).length := by
      have hpos : 0 < (pySplit s).length := by omega
      omega
    have hl2 : (pySplit s).length - 2 < (pySplit s).length := by omega
    have hgb : getElem (pySplit s) ((pySplit s).length - 1) hlt = b := by
      have hx := List.getElem?_eq_getElem hlt
      rw [hb] at hx
      exact (Option.some.inj hx).symm
    have hga : getElem (pySplit s) ((pySplit s).length - 2) hl2 = a := by
      have hx := List.getElem?_eq_getElem hl2
      rw [ha] at hx
      exact (Option.some.inj hx).symm
    have hgl : (pySplit s).getLast hne = b := by
      rw [List.getLast_eq_getElem]
      exact hgb
    simp only [handle_suffix_lastname]
    rw [dif_neg hne]
    rw [if_pos ?hcond]
    case hcond =>
      constructor
      · rw [hgl]
        have hlist : (["jr", "sr"] ++ ["ii", "iii", "iv", "v", "vi", "vii", "viii", "ix", "x"])
            = suffixTokens := rfl
        rw [hlist]
        exact List.elem_iff.mpr hmem
      · exact hlen
    have he1 : (pySplit s).length - 2 + 1 = (pySplit s).length - 1 := by omega
    have hdrop : (pySplit s).drop ((pySplit s).length - 2) = [a, b] := by
      rw [List.drop_eq_getElem_cons hl2, he1, List.drop_eq_getElem_cons hlt]
      have he2 : (pySplit s).length - 1 + 1 = (pySplit s).length := by omega
      rw [he2, List.drop_length, hga, hgb]
    rw [hdrop]
    rfl
  · intro s b l hps hne' hb hncond
    subst hps
    have hlt : (pySplit s).length - 1 < (pySplit s).length := by
      have hpos : 0 < (pySplit s).length := List.length_pos.mpr hne'
      omega
    have hgb : getElem (pySplit s) ((pySplit s).length - 1) hlt = b := by
      have hx := List.getElem?_eq_getElem hlt
      rw [hb] at hx
      exact (Option.some.inj hx).symm
    have hgl : (pySplit s).getLast hne' = b := by
      rw [List.getLast_eq_getElem]
      exact hgb
    simp only [handle_suffix_lastname]
    rw [dif_neg hne']
    rw [if_neg ?hncond]
    case hncond =>
      rintro ⟨hc1, hc2⟩
      apply hncond
      refine ⟨hc2, ?_⟩
      rw [hgl] at hc1
      have hlist : (["jr", "sr"] ++ ["ii", "iii", "iv", "v", "vi", "vii", "viii", "ix", "x"])
          = suffixTokens := rfl
      rw [hlist] at hc1
      exact List.elem_iff.mp hc1
    rw [hgl]

/-- Witness for C3: the suffix branch applied to "John Smith Jr". -/
theorem suffix_lastname_spec_witness :
    handle_suffix_lastname "John Smith Jr" = some ("Smith" ++ " " ++ "Jr") :=
  suffix_lastname_spec.1 "John Smith Jr" "Smith" "Jr" ["John", "Smith", "Jr"] rfl
    (by decide) rfl rfl (by decide)

/-! ## C5 and C10: the header locator -/

/-- C5: the header locator returns the zero-based index of the first line
satisfying both the name condition (contains "name", or both "firstname" and
"lastname") and the DOB condition (contains "dob", "date of birth" or
"birthdate"), all case-insensitively; it returns `none` — never an
exception — when no line qualifies or when the file cannot be read; in
particular a file whose lines 0-2 are titles/blank and whose line 3 is
"Last Name,First Name,Date of Birth" yields index 3. -/
theorem find_header_start_spec :
    (∀ l : String, headerLine l =
      ((containsSub "name" (strToLower l) ||
        (containsSub "firstname" (strToLower l) && containsSub "lastname" (strToLower l))) &&
       (containsSub "dob" (strToLower l) || containsSub "date of birth" (strToLower l) ||
        containsSub "birthdate" (strToLower l)))) ∧
    (∀ (lines : List String) (i : Nat), find_header_start (some lines) = some i →
      ∃ l, lines[i]? = some l ∧ headerLine l = true ∧
        ∀ (j : Nat) (l' : String), j < i → lines[j]? = some l' → headerLine l' = false) ∧
    (∀ lines : List String,
      find_header_start (some lines) = none ↔ ∀ l ∈ lines, headerLine l = false) ∧
    find_header_start none = none ∧
    find_header_start (some ["Report Title", "", "Spring 2024",
      "Last Name,First Name,Date of Birth"]) = some 3 := by
  refine ⟨fun l => rfl, ?_, ?_, rfl, by decide⟩
  · intro lines i h
    have h' : lines.findIdx? headerLine = some i := h
    rw [List.findIdx?_eq_some_iff_findIdx_eq] at h'
    obtain ⟨hlen, hidx⟩ := h'
    refine ⟨lines[i], List.getElem?_eq_getElem hlen, ?_, ?_⟩
    · have hp := @List.findIdx_getElem _ headerLine lines (by rw [hidx]; exact hlen)
      simp only [hidx] at hp
      exact hp
    · intro j l' hj hjl'
      have hjlt : j < lines.findIdx headerLine := by rw [hidx]; exact hj
      have hf := List.not_of_lt_findIdx hjlt
      have hjlen : j < lines.length := Nat.lt_of_lt_of_le hj (Nat.le_of_lt hlen)
      have hx := List.getElem?_eq_getElem hjlen
      rw [hjl'] at hx
      have hl' : lines[j] = l' := (Option.some.inj hx).symm
      rw [← hl']
      exact hf
  · intro lines
    exact List.findIdx?_eq_none_iff

/-- Witness for C5 at the concrete 4-line file: index 3 holds a header line
and no earlier line does. -/
theorem find_header_start_spec_witness :
    ∃ l, (["Report Title", "", "Spring 2024",
        "Last Name,First Name,Date of Birth"] : List String)[3]? = some l ∧
      headerLine l = true ∧
      ∀ (j : Nat) (l' : String), j < 3 →
        (["Report Title", "", "Spring 2024",
          "Last Name,First Name,Date of Birth"] : List String)[j]? = some l' →
        headerLine l' = false :=
  find_header_start_spec.2.1 _ 3 (by decide)

/-- The name condition with the redundant disjunct removed. -/
def headerLineSimple (line : String) : Bool :=
  let line_lower := strToLower line
  containsSub "name" line_lower &&
  (containsSub "dob" line_lower || containsSub "date of birth" line_lower ||
   containsSub "birthdate" line_lower)

theorem containsSub_name_of_firstname {l : String}
    (h : containsSub "firstname" l = true) : containsSub "name" l = true := by
  unfold containsSub at h ⊢
  rw [decide_eq_true_iff] at h ⊢
  exact List.IsInfix.trans (by decide) h

/-- C10: the second disjunct of the name condition is redundant — since
"firstname" contains "name" as a substring, any line containing "firstname"
already contains "name" — so the name condition is equivalent to plain
containment of "name", and the header locator computes the same index with
the simplified predicate. -/
theorem name_condition_redundant :
    (∀ line : String,
      (containsSub "name" (strToLower line) ||
        (containsSub "firstname" (strToLower line) &&
         containsSub "lastname" (strToLower line))) =
      containsSub "name" (strToLower line)) ∧
    (∀ line : String, headerLine line = headerLineSimple line) ∧
    (∀ file : Option (List String), find_header_start file =
      (match file with
       | none => none
       | some lines => lines.findIdx? headerLineSimple)) := by
  have hname : ∀ line : String,
      (containsSub "name" (strToLower line) ||
        (containsSub "firstname" (strToLower line) &&
         containsSub "lastname" (strToLower line))) =
      containsSub "name" (strToLower line) := by
    intro line
    cases hn : containsSub "name" (strToLower line) with
    | true => rfl
    | false =>
      cases hf : containsSub "firstname" (strToLower line) with
      | false => rfl
      | true =>
        rw [containsSub_name_of_firstname hf] at hn
        exact Bool.noConfusion hn
  have hline : ∀ line : String, headerLine line = headerLineSimple line := by
    intro line
    simp only [headerLine, headerLineSimple]
    rw [hname line]
  refine ⟨hname, hline, ?_⟩
  intro file
  cases file with
  | none => rfl
  | some lines =>
    show lines.findIdx? headerLine = lines.findIdx? headerLineSimple
    rw [funext hline]

/-! ## C6: the delimiter-frequency fallback -/

/-- The candidate delimiters of the fallback. -/
def delimCandidates : List Char := [',', '\t', ';']

theorem mem_insertByCount {x y : Char × Nat} {l : List (Char × Nat)} :
    y ∈ insertByCount x l ↔ y = x ∨ y ∈ l := by
  induction l with
  | nil => simp [insertByCount]
  | cons z zs ih =>
    unfold insertByCount
    by_cases h : z.2 ≤ x.2
    · rw [if_pos h]
      simp [List.mem_cons]
    · rw [if_neg h]
      rw [List.mem_cons, ih, List.mem_cons]
      tauto

theorem descPairs_insertByCount {x : Char × Nat} {l : List (Char × Nat)}
    (hl : List.Pairwise (fun a b : Char × Nat => b.2 ≤ a.2) l) :
    List.Pairwise (fun a b : Char × Nat => b.2 ≤ a.2) (insertByCount x l) := by
  induction l with
  | nil => simp [insertByCount]
  | cons z zs ih =>
    rw [List.pairwise_cons] at hl
    obtain ⟨hz, hzs⟩ := hl
    unfold insertByCount
    by_cases h : z.2 ≤ x.2
    · rw [if_pos h]
      rw [List.pairwise_cons]
      constructor
      · intro a ha
        rcases List.mem_cons.mp ha with rfl | ha2
        · exact h
        · exact Nat.le_trans (hz a ha2) h
      · rw [List.pairwise_cons]
        exact ⟨hz, hzs⟩
    · rw [if_neg h]
      rw [List.pairwise_cons]
      constructor
      · intro a ha
        rcases mem_insertByCount.mp ha with rfl | ha2
        · omega
        · exact hz a ha2
      · exact ih hzs

theorem descPairs_sortByCountDesc (l : List (Char × Nat)) :
    List.Pairwise (fun a b : Char × Nat => b.2 ≤ a.2) (sortByCountDesc l) := by
  induction l with
  | nil => simp [sortByCountDesc]
  | cons x xs ih =>
    unfold sortByCountDesc
    exact descPairs_insertByCount ih

theorem mem_sortByCountDesc {y : Char × Nat} {l : List (Char × Nat)} :
    y ∈ sortByCountDesc l ↔ y ∈ l := by
  induction l with
  | nil => simp [sortByCountDesc]
  | cons x xs ih =>
    unfold sortByCountDesc
    rw [mem_insertByCount, ih, List.mem_cons]

theorem mem_insertOrder_iff {c : Char} {cs : List Char} :
    c ∈ insertOrder cs ↔ c ∈ cs := by
  suffices h : ∀ acc : List Char,
      c ∈ cs.foldl (fun acc c => if acc.contains c then acc else acc ++ [c]) acc ↔
        c ∈ acc ∨ c ∈ cs by
    simpa [insertOrder] using h []
  induction cs with
  | nil =>
    intro acc
    simp
  | cons x xs ih =>
    intro acc
    rw [List.foldl_cons]
    by_cases hx : acc.contains x
    · rw [if_pos hx]
      rw [ih]
      constructor
      · rintro (h | h)
        · exact Or.inl h
        · exact Or.inr (List.mem_cons_of_mem _ h)
      · rintro (h | h)
        · exact Or.inl h
        · rcases List.mem_cons.mp h with rfl | h2
          · exact Or.inl (by simpa using hx)
          · exact Or.inr h2
    · rw [if_neg hx]
      rw [ih]
      simp only [List.mem_append, List.mem_cons, List.not_mem_nil, or_false]
      tauto

/-- A ten-line file holding 50 commas and 2 semicolons. -/
def linesFifty : List String :=
  ["a,b,c,d,e,f", "a,b,c,d,e,f", "a,b,c,d,e,f", "a,b,c,d,e,f",
   "a,b,c,d,e,f", "a,b,c,d,e,f", "a,b,c,d,e,f", "a,b,c,d,e,f",
   "g,h;i,j,k,l,m", "g,h;i,j,k,l,m"]

set_option maxRecDepth 4000

/-- C6: when the sniffing primary fails (returns no delimiter), detection
falls back to frequency analysis, which counts every character of the first
`num_lines_fallback` lines and among the candidates comma, tab and semicolon
returns one occurring most often — a candidate with positive count no other
candidate exceeds — and `none` when no candidate occurs at all; in
particular a file with 50 commas and 2 semicolons in its first 10 lines
yields the comma. -/
theorem delimiter_fallback_spec :
    (∀ (file : Option (List String)) (n : Nat),
      detect_delimiter none file n = analyze_most_common_delimiter file n) ∧
    (∀ (lines : List String) (n : Nat) (d : Char),
      analyze_most_common_delimiter (some lines) n = some d →
        d ∈ delimCandidates ∧ 0 < (charsOfFirst lines n).count d ∧
        ∀ c ∈ delimCandidates,
          (charsOfFirst lines n).count c ≤ (charsOfFirst lines n).count d) ∧
    (∀ (lines : List String) (n : Nat),
      (∀ c ∈ delimCandidates, (charsOfFirst lines n).count c = 0) →
      analyze_most_common_delimiter (some lines) n = none) ∧
    analyze_most_common_delimiter (some linesFifty) 10 = some ',' := by
  have heq : ∀ (lines : List String) (n : Nat),
      analyze_most_common_delimiter (some lines) n =
        (if ((insertOrder (charsOfFirst lines n)).map
            (fun c => (c, (charsOfFirst lines n).count c))).isEmpty then none
         else ((((sortByCountDesc ((insertOrder (charsOfFirst lines n)).map
            (fun c => (c, (charsOfFirst lines n).count c)))).filter
              (fun it => ([',', '\t', ';'].contains it.1) && decide (it.2 > 0))).map
                (fun it => it.1)).head?)) := fun lines n => rfl
  refine ⟨fun file n => rfl, ?_, ?_, rfl⟩
  · intro lines n d h
    rw [heq lines n] at h
    by_cases hemp : ((insertOrder (charsOfFirst lines n)).map
        (fun c => (c, (charsOfFirst lines n).count c))).isEmpty
    · rw [if_pos hemp] at h
      exact absurd h (by simp)
    · rw [if_neg hemp] at h
      rw [List.head?_map] at h
      cases hh : ((sortByCountDesc ((insertOrder (charsOfFirst lines n)).map
          (fun c => (c, (charsOfFirst lines n).count c)))).filter
            (fun it => ([',', '\t', ';'].contains it.1) && decide (it.2 > 0))).head? with
      | none =>
        rw [hh] at h
        exact absurd h (by simp)
      | some it =>
        rw [hh] at h
        have hd : it.1 = d := by simpa using h
        rw [List.head?_eq_some_iff] at hh
        obtain ⟨ys, hys⟩ := hh
        have hmemf : it ∈ (sortByCountDesc ((insertOrder (charsOfFirst lines n)).map
            (fun c => (c, (charsOfFirst lines n).count c)))).filter
              (fun it => ([',', '\t', ';'].contains it.1) && decide (it.2 > 0)) := by
          rw [hys]
          exact List.mem_cons_self it ys
        have hmems := (List.mem_filter.mp hmemf).1
        have hpit := (List.mem_filter.mp hmemf).2
        have hcand : ([',', '\t', ';'].contains it.1) = true :=
          (Bool.and_eq_true_iff.mp hpit).1
        have hpos : 0 < it.2 :=
          of_decide_eq_true (Bool.and_eq_true_iff.mp hpit).2
        obtain ⟨c0, hc0mem, hc0eq⟩ := List.mem_map.mp (mem_sortByCountDesc.mp hmems)
        have hcnt : (charsOfFirst lines n).count d = it.2 := by
          rw [← hc0eq] at hd ⊢
          rw [← hd]
        refine ⟨?_, ?_, ?_⟩
        · rw [← hd]
          simpa [delimCandidates] using hcand
        · rw [hcnt]
          exact hpos
        · intro c2 hc2mem
          by_cases hz : (charsOfFirst lines n).count c2 = 0
          · rw [hz]
            exact Nat.zero_le _
          · have hposc2 : 0 < (charsOfFirst lines n).count c2 := Nat.pos_of_ne_zero hz
            have hc2chars : c2 ∈ charsOfFirst lines n := List.count_pos_iff.mp hposc2
            have hc2io : c2 ∈ insertOrder (charsOfFirst lines n) :=
              mem_insertOrder_iff.mpr hc2chars
            have hc2filter : (c2, (charsOfFirst lines n).count c2) ∈
                (sortByCountDesc ((insertOrder (charsOfFirst lines n)).map
                  (fun c => (c, (charsOfFirst lines n).count c)))).filter
                    (fun it => ([',', '\t', ';'].contains it.1) && decide (it.2 > 0)) := by
              rw [List.mem_filter]
              refine ⟨mem_sortByCountDesc.mpr (List.mem_map.mpr ⟨c2, hc2io, rfl⟩), ?_⟩
              rw [Bool.and_eq_true_iff]
              constructor
              · simpa [delimCandidates] using hc2mem
              · exact decide_eq_true hposc2
            have hdesc := (descPairs_sortByCountDesc ((insertOrder
                (charsOfFirst lines n)).map
                  (fun c => (c, (charsOfFirst lines n).count c)))).filter
                    (fun it => ([',', '\t', ';'].contains it.1) && decide (it.2 > 0))
            rw [hys] at hc2filter hdesc
            rw [hcnt]
            rcases List.mem_cons.mp hc2filter with hceq | hmem2
            · have : (charsOfFirst lines n).count c2 = it.2 :=
                congrArg Prod.snd hceq
              omega
            · exact List.rel_of_pairwise_cons hdesc hmem2
  · intro lines n hzero
    rw [heq lines n]
    by_cases hemp : ((insertOrder (charsOfFirst lines n)).map
        (fun c => (c, (charsOfFirst lines n).count c))).isEmpty
    · rw [if_pos hemp]
    · rw [if_neg hemp]
      have hfil : (sortByCountDesc ((insertOrder (charsOfFirst lines n)).map
          (fun c => (c, (charsOfFirst lines n).count c)))).filter
            (fun it => ([',', '\t', ';'].contains it.1) && decide (it.2 > 0)) = [] := by
        rw [List.filter_eq_nil_iff]
        intro it hit hpit
        obtain ⟨c0, hc0io, hc0eq⟩ := List.mem_map.mp (mem_sortByCountDesc.mp hit)
        have hcand := (Bool.and_eq_true_iff.mp hpit).1
        have hpos := of_decide_eq_true (Bool.and_eq_true_iff.mp hpit).2
        have hc0d : c0 ∈ delimCandidates := by
          rw [← hc0eq] at hcand
          simpa [delimCandidates] using hcand
        have hz := hzero c0 hc0d
        rw [← hc0eq] at hpos
        simp only [hz] at hpos
        exact absurd hpos (by omega)
      rw [hfil]
      rfl

/-- Witness for C6 at the 50-comma file: the comma is a candidate, occurs,
and no candidate occurs more often. -/
theorem delimiter_fallback_spec_witness :
    ',' ∈ delimCandidates ∧ 0 < (charsOfFirst linesFifty 10).count ',' ∧
    ∀ c ∈ delimCandidates,
      (charsOfFirst linesFifty 10).count c ≤ (charsOfFirst linesFifty 10).count ',' :=
  delimiter_fallback_spec.2.1 linesFifty 10 ',' rfl

/-! ## C1, C4, C7: the matcher end to end -/

/-- Two-row subject table: only Ann Lee appears in the reference table. -/
def exTableA : Table := ⟨["firstname", "lastname", "dob"],
  [[("firstname", Value.str "Ann"), ("lastname", Value.str "Lee"),
    ("dob", Value.str "2005-01-01")],
   [("firstname", Value.str "Bob"), ("lastname", Value.str "Ray"),
    ("dob", Value.str "2006-02-02")]]⟩

/-- Reference table: Ann Lee plus one unrelated row. -/
def exTableB : Table := ⟨["firstname", "lastname", "dob"],
  [[("firstname", Value.str "Ann"), ("lastname", Value.str "Lee"),
    ("dob", Value.str "2005-01-01")],
   [("firstname", Value.str "Zed"), ("lastname", Value.str "Qua"),
    ("dob", Value.str "2001-09-09")]]⟩

/-- Matcher output for `exTableA` against `exTableB`: both rows of A, in
order, the first flagged true and the second false. -/
def exTableOut : Table := ⟨["firstname", "lastname", "dob", "isspecialed"],
  [[("firstname", Value.str "Ann"), ("lastname", Value.str "Lee"),
    ("dob", Value.str "2005-01-01"), ("isspecialed", Value.bool true)],
   [("firstname", Value.str "Bob"), ("lastname", Value.str "Ray"),
    ("dob", Value.str "2006-02-02"), ("isspecialed", Value.bool false)]]⟩

/-- C1: flag mode.  For loaded tables A and B the matcher succeeds; the
output has exactly one row per row of A, in order (so no row of B appears),
each output row agreeing with its A row on all surviving original columns;
the boolean `isspecialed` of row i is true iff at least one row of the
normalized reference table has a MatchKey (helper_lastname,
helper_firstname, helper_dob) equal to row i's MatchKey.  In particular, on
the two-row `exTableA` against `exTableB` where exactly one row matches by
key, the result has 2 rows with the flag true on exactly one of them. -/
theorem flag_mode_spec (parse : Value → Value) (A B : Table) (fA fB : String)
    (hWA : A.WF) (hWB : B.WF)
    (hdA : find_dob_field A = some fA) (hdB : find_dob_field B = some fB)
    (hhA : ∀ c ∈ helperCols, ¬ c ∈ A.cols) (hhB : ∀ c ∈ helperCols, ¬ c ∈ B.cols)
    (hlnA : "name" ∈ A.cols ∨ "lastname" ∈ A.cols)
    (hfnA : "name" ∈ A.cols ∨ "firstname" ∈ A.cols)
    (hlnB : "name" ∈ B.cols ∨ "lastname" ∈ B.cols)
    (hfnB : "name" ∈ B.cols ∨ "firstname" ∈ B.cols)
    (hsA : ¬ "isspecialed" ∈ A.cols) :
    (∃ T, find_changed_students_core parse A B = Except.ok T ∧
      T.rows.length = A.rows.length ∧
      (∀ (i : Nat) (r : Row), A.rows[i]? = some r →
        ∃ r' a', T.rows[i]? = some r' ∧
          (normalizeTable parse A fA).rows[i]? = some a' ∧
          (List.lookup "isspecialed" r' = some (Value.bool true) ↔
            ∃ b ∈ (normalizeTable parse B fB).rows, matchKeyEq b a' = true) ∧
          (∀ d, d ∈ A.cols → d ≠ "name" → List.lookup d r' = List.lookup d r))) ∧
    find_changed_students_core parseCanonical exTableA exTableB =
      Except.ok exTableOut ∧
    exTableOut.rows.length = 2 ∧
    (exTableOut.rows.countP
      (fun r => List.lookup "isspecialed" r == some (Value.bool true))) = 1 := by
  refine ⟨?_, rfl, rfl, rfl⟩
  obtain ⟨T, hT, hTWF, hlen, hcols, hrows⟩ :=
    core_ok parse A B fA fB hWA hWB hdA hdB hhA hhB hlnA hfnA hlnB hfnB hsA
  refine ⟨T, hT, hlen, ?_⟩
  intro i r hr
  obtain ⟨r', a', hr', ha', hkeep, hhelp, hflag⟩ := hrows i r hr
  refine ⟨r', a', hr', ha', ?_, hkeep⟩
  rw [hflag]
  constructor
  · intro h
    have h2 : Value.bool ((normalizeTable parse B fB).rows.any
        (fun b => matchKeyEq b a')) = Value.bool true := Option.some.inj h
    have h3 : ((normalizeTable parse B fB).rows.any
        (fun b => matchKeyEq b a')) = true := by injection h2
    exact List.any_eq_true.mp h3
  · intro h
    rw [List.any_eq_true.mpr h]

/-- Witness for C1: the general flag-mode statement applied to the concrete
two-row scenario. -/
theorem flag_mode_spec_witness :
    ∃ T, find_changed_students_core parseCanonical exTableA exTableB =
        Except.ok T ∧
      T.rows.length = exTableA.rows.length ∧
      (∀ (i : Nat) (r : Row), exTableA.rows[i]? = some r →
        ∃ r' a', T.rows[i]? = some r' ∧
          (normalizeTable parseCanonical exTableA "dob").rows[i]? = some a' ∧
          (List.lookup "isspecialed" r' = some (Value.bool true) ↔
            ∃ b ∈ (normalizeTable parseCanonical exTableB "dob").rows,
              matchKeyEq b a' = true) ∧
          (∀ d, d ∈ exTableA.cols → d ≠ "name" →
            List.lookup d r' = List.lookup d r)) :=
  (flag_mode_spec parseCanonical exTableA exTableB "dob" "dob"
    (by unfold Table.WF; decide) (by unfold Table.WF; decide) rfl rfl
    (by decide) (by decide) (by decide) (by decide) (by decide) (by decide)
    (by decide)).1

/-- One-row subject table for the inner-join scenario. -/
def tblOneA : Table := ⟨["firstname", "lastname", "dob"],
  [[("firstname", Value.str "Ann"), ("lastname", Value.str "Lee"),
    ("dob", Value.str "2005-01-01")]]⟩

/-- A reference table with two rows sharing Ann Lee's MatchKey. -/
def tblDupB : Table := ⟨["firstname", "lastname", "dob"],
  [[("firstname", Value.str "Ann"), ("lastname", Value.str "Lee"),
    ("dob", Value.str "2005-01-01")],
   [("firstname", Value.str "Ann"), ("lastname", Value.str "Lee"),
    ("dob", Value.str "2005-01-01")]]⟩

/-- The number of pairs (a ∈ A, b ∈ B) with equal MatchKey — the row count
an inner join would produce. -/
def matchingPairCount (ta tb : Table) : Nat :=
  (ta.rows.map (fun a => (tb.rows.filter (fun b => matchKeyEq b a)).length)).sum

/-- C4 counterexample: the matcher has no inner-join mode.  With one subject
row and a reference table holding two rows of the same MatchKey, inner-join
semantics ("one row per matching pair, A's row duplicated") would give 2
result rows; the code produces exactly 1 row (per row of A, flag mode). -/
theorem inner_join_counterexample :
    ∃ T, find_changed_students_core parseCanonical tblOneA tblDupB =
        Except.ok T ∧
      T.rows.length = 1 ∧
      matchingPairCount (normalizeTable parseCanonical tblOneA "dob")
        (normalizeTable parseCanonical tblDupB "dob") = 2 ∧
      T.rows.length ≠ matchingPairCount
        (normalizeTable parseCanonical tblOneA "dob")
        (normalizeTable parseCanonical tblDupB "dob") :=
  ⟨⟨["firstname", "lastname", "dob", "isspecialed"],
    [[("firstname", Value.str "Ann"), ("lastname", Value.str "Lee"),
      ("dob", Value.str "2005-01-01"), ("isspecialed", Value.bool true)]]⟩,
    rfl, rfl, rfl, by decide⟩

/-- C4 amended: the matcher's only mode is the flag mode; for
TableA = [{Ann, Lee, 2005-01-01}] and TableB = the same row plus one
unrelated row, the result has exactly 1 row carrying A's three fields (and
the added flag, true) — one row per row of A, with no columns carried over
from B and no pair-wise duplication. -/
theorem flag_only_scenario :
    find_changed_students_core parseCanonical tblOneA exTableB =
      Except.ok ⟨["firstname", "lastname", "dob", "isspecialed"],
        [[("firstname", Value.str "Ann"), ("lastname", Value.str "Lee"),
          ("dob", Value.str "2005-01-01"), ("isspecialed", Value.bool true)]]⟩ := rfl

/-- A subject table with a combined name column. -/
def tblNameA : Table := ⟨["name", "dob"],
  [[("name", Value.str "Ann Lee"), ("dob", Value.str "2005-01-01")]]⟩

/-- C7 counterexample: the output does not mirror all of input A's original
columns — a combined `name` column is dropped by the normalizer (line 162 of
`main.py`), so it is absent from the result. -/
theorem flag_columns_counterexample :
    "name" ∈ tblNameA.cols ∧
    ∃ T, find_changed_students_core parseCanonical tblNameA tblNameA =
        Except.ok T ∧ ¬ "name" ∈ T.cols :=
  ⟨by decide,
   ⟨["dob", "isspecialed"],
    [[("dob", Value.str "2005-01-01"), ("isspecialed", Value.bool true)]]⟩,
   rfl, by decide⟩

/-- C7 amended: the flag-mode output mirrors input A's original columns
except a combined `name` column (dropped after the helper names are derived
from it): every other original column of A is present with unchanged values,
the helper columns (helper_lastname, helper_firstname, helper_dob) are
dropped, and — for nonempty A — the only added column is the boolean
`isspecialed`. -/
theorem flag_mode_columns (parse : Value → Value) (A B : Table) (fA fB : String)
    (hWA : A.WF) (hWB : B.WF)
    (hdA : find_dob_field A = some fA) (hdB : find_dob_field B = some fB)
    (hhA : ∀ c ∈ helperCols, ¬ c ∈ A.cols) (hhB : ∀ c ∈ helperCols, ¬ c ∈ B.cols)
    (hlnA : "name" ∈ A.cols ∨ "lastname" ∈ A.cols)
    (hfnA : "name" ∈ A.cols ∨ "firstname" ∈ A.cols)
    (hlnB : "name" ∈ B.cols ∨ "lastname" ∈ B.cols)
    (hfnB : "name" ∈ B.cols ∨ "firstname" ∈ B.cols)
    (hsA : ¬ "isspecialed" ∈ A.cols) (hne : A.rows ≠ []) :
    ∃ T, find_changed_students_core parse A B = Except.ok T ∧
      (∀ c ∈ A.cols, c ≠ "name" → c ∈ T.cols) ∧
      ¬ "name" ∈ T.cols ∧
      (∀ c ∈ helperCols, ¬ c ∈ T.cols) ∧
      "isspecialed" ∈ T.cols ∧
      (∀ c ∈ T.cols, c ∈ A.cols ∨ c = "isspecialed") ∧
      (∀ (i : Nat) (r : Row), A.rows[i]? = some r →
        ∃ r', T.rows[i]? = some r' ∧
          ∀ c ∈ A.cols, c ≠ "name" → List.lookup c r' = List.lookup c r) := by
  obtain ⟨T, hT, hTWF, hlen, hcols, hrows⟩ :=
    core_ok parse A B fA fB hWA hWB hdA hdB hhA hhB hlnA hfnA hlnB hfnB hsA
  refine ⟨T, hT, ?_, ?_, ?_, ?_, ?_, ?_⟩
  · intro c hc hcn
    exact (hcols c).mpr (Or.inl ⟨hc, hcn⟩)
  · intro hc
    rcases (hcols _).mp hc with ⟨-, hne2⟩ | ⟨-, heq⟩
    · exact hne2 rfl
    · exact absurd heq (by decide)
  · intro c hc hcT
    rcases (hcols c).mp hcT with ⟨hca, -⟩ | ⟨-, heq⟩
    · exact hhA c hc hca
    · rw [heq] at hc
      exact absurd hc (by decide)
  · exact (hcols _).mpr (Or.inr ⟨hne, rfl⟩)
  · intro c hcT
    rcases (hcols c).mp hcT with ⟨hca, -⟩ | ⟨-, heq⟩
    · exact Or.inl hca
    · exact Or.inr heq
  · intro i r hr
    obtain ⟨r', a', hr', -, hkeep, -, -⟩ := hrows i r hr
    exact ⟨r', hr', hkeep⟩

/-- Witness for the amended C7 at a table with a combined name column. -/
theorem flag_mode_columns_witness :
    ∃ T, find_changed_students_core parseCanonical tblNameA tblNameA =
        Except.ok T ∧
      (∀ c ∈ tblNameA.cols, c ≠ "name" → c ∈ T.cols) ∧
      ¬ "name" ∈ T.cols ∧
      (∀ c ∈ helperCols, ¬ c ∈ T.cols) ∧
      "isspecialed" ∈ T.cols ∧
      (∀ c ∈ T.cols, c ∈ tblNameA.cols ∨ c = "isspecialed") ∧
      (∀ (i : Nat) (r : Row), tblNameA.rows[i]? = some r →
        ∃ r', T.rows[i]? = some r' ∧
          ∀ c ∈ tblNameA.cols, c ≠ "name" →
            List.lookup c r' = List.lookup c r) :=
  flag_mode_columns parseCanonical tblNameA tblNameA "dob" "dob"
    (by unfold Table.WF; decide) (by unfold Table.WF; decide) rfl rfl
    (by decide) (by decide) (by decide) (by decide) (by decide) (by decide)
    (by decide) (by decide)

/-! ## C8 and C9: the loading boundary -/

/-- C8: file-and-parse-level failures are absorbed at the table-loading
boundary and surfaced as an absent table: the loader returns `none` when the
header cannot be located (whatever the parse outcome) and when parsing
fails, and `find_changed_students` returns `none` — building no result
table — whenever either of its two loads fails, so the matcher core never
receives a partially-valid table. -/
theorem load_failure_propagation :
    (∀ (file : Option (List String)) (parsed : Option Table),
      find_header_start file = none → read_csv_with_detections file parsed = none) ∧
    (∀ file : Option (List String), read_csv_with_detections file none = none) ∧
    (∀ (parse : Value → Value) (fileA fileB : Option (List String))
        (parsedA parsedB : Option Table),
      read_csv_with_detections fileA parsedA = none ∨
        read_csv_with_detections fileB parsedB = none →
      find_changed_students parse fileA fileB parsedA parsedB = none) := by
  refine ⟨?_, ?_, ?_⟩
  · intro file parsed h
    unfold read_csv_with_detections
    rw [h]
  · intro file
    unfold read_csv_with_detections
    cases find_header_start file <;> rfl
  · intro parse fileA fileB parsedA parsedB h
    unfold find_changed_students
    rcases h with h | h
    · rw [h]
    · rw [h]
      cases read_csv_with_detections fileA parsedA <;> rfl

/-- Witness for C8: an unreadable first file (no decoded lines, so no header)
makes the whole run return the absent result. -/
theorem load_failure_propagation_witness :
    find_changed_students parseCanonical none (some ["Name,DOB"]) none
      (some exTableB) = none :=
  load_failure_propagation.2.2 parseCanonical none (some ["Name,DOB"]) none
    (some exTableB) (Or.inl rfl)

/-- A loaded table (its header line is locatable) without an exact
`birthdate` / `date of birth` / `dob` column. -/
def tblNoDobCol : Table := ⟨["name", "dob year"],
  [[("name", Value.str "Ann Lee"), ("dob year", Value.str "2005")]]⟩

/-- A loaded table without exact `name` / `firstname` / `lastname`
columns (its header still contains the substrings "name" and "dob"). -/
def tblNickname : Table := ⟨["nickname", "dob"],
  [[("nickname", Value.str "Ann"), ("dob", Value.str "2005-01-01")]]⟩

/-- C9: the matcher is not total over successfully loaded tables.  The
header line "Name,DOB Year" is accepted by the locator (so the file loads),
yet the loaded columns contain no exact dob column: `find_dob_field` returns
none, `standardize_dob` indexes the frame with `None` and raises — modelled
as `Except.error`, not the absent-table `none`.  Likewise "Nickname,DOB"
loads but has none of the exact name columns, so the helper columns are
never created and the matching loop's indexing raises.  The end-to-end run
returns the raised error, not `none`. -/
theorem matcher_not_total :
    headerLine "Name,DOB Year" = true ∧
    find_dob_field tblNoDobCol = none ∧
    find_changed_students_core parseCanonical tblNoDobCol tblNoDobCol =
      Except.error "KeyError: None" ∧
    headerLine "Nickname,DOB" = true ∧
    find_dob_field tblNickname = some "dob" ∧
    ("name" ∈ tblNickname.cols ∨ "firstname" ∈ tblNickname.cols ∨
      "lastname" ∈ tblNickname.cols) = False ∧
    find_changed_students_core parseCanonical tblNickname tblNickname =
      Except.error "KeyError: helper column (all)" ∧
    find_changed_students parseCanonical (some ["Name,DOB Year"])
      (some ["Name,DOB Year"]) (some tblNoDobCol) (some tblNoDobCol) =
      some (Except.error "KeyError: None") := by
  refine ⟨by decide, rfl, rfl, by decide, rfl, ?_, rfl, rfl⟩
  simp only [eq_iff_iff, iff_false]
  rintro (h | h | h) <;> revert h <;> decide
